import Mathlib

/-!
Verification of the arithmetic-expression validator.

The repository's source (src/aaaa.py) declares the grammar

  expr   : expr "+" term | expr "-" term | term
  term   : term "*" factor | term "/" factor | factor
  factor : "-" factor | NUMBER | "(" expr ")"

with NUMBER and inline whitespace imported from the parser-generator
library's common terminal definitions, and exposes
`validate_expression(expr) -> (is_valid, error-or-None)` which runs the
generated LALR parser and maps every parse exception to a
`(False, message)` pair.  The lexing/parsing engine itself lives in the
external library and is not part of the repository's source, so the
engine is modelled here from the specification (spec sections 3, 4 and 7):
a single-pass lexer producing offset-tagged tokens terminated by an
end-of-input token, and a precedence-climbing recursive-descent parser
with two binary precedence levels and unary minus binding tightest,
reporting the first failure as an `Invalid{position, message}` outcome.
-/

namespace ExprValidator

/-- Token kinds of the lexer: NUMBER, the six single-character symbols,
and the synthetic end-of-input marker. -/
inductive TokenKind where
  | number
  | plus
  | minus
  | star
  | slash
  | lparen
  | rparen
  | endOfInput
deriving DecidableEq, Repr

/-- A classified, position-tagged lexical unit: kind, text, and the
half-open offset range it occupies in the original input. -/
structure Token where
  kind : TokenKind
  text : List Char
  start_offset : Nat
  end_offset : Nat
deriving DecidableEq, Repr

/-- A lexing failure: the offending character and its offset. -/
structure LexError where
  offset : Nat
  char : Char
deriving DecidableEq, Repr

/-- A parsing failure: 0-based position in the input and a message. -/
structure PError where
  pos : Nat
  msg : String
deriving DecidableEq, Repr

/-- The outcome of validation: `Valid`, or `Invalid` with a 0-based
position into the original input and a human-readable message. -/
inductive ValidationOutcome where
  | Valid : ValidationOutcome
  | Invalid : Nat → String → ValidationOutcome
deriving DecidableEq, Repr

/-- Abstract syntax of expressions, one constructor per grammar
production (add, sub, mul, div, neg, number). -/
inductive Expr where
  | num : List Char → Expr
  | neg : Expr → Expr
  | add : Expr → Expr → Expr
  | sub : Expr → Expr → Expr
  | mul : Expr → Expr → Expr
  | div : Expr → Expr → Expr
deriving DecidableEq, Repr

/-! ## Lexer -/

/-- Consume a maximal run of decimal digits, returning it and the rest. -/
def takeDigits : List Char → List Char × List Char
  | [] => ([], [])
  | c :: cs =>
    if c.isDigit then
      let p := takeDigits cs
      (c :: p.1, p.2)
    else ([], c :: cs)

/-- Modelled from the spec: the optional fractional part of a NUMBER,
a `.` followed by a maximal run of digits. -/
def lexFrac : List Char → List Char × List Char
  | [] => ([], [])
  | c :: cs =>
    if c = '.' then
      let p := takeDigits cs
      (c :: p.1, p.2)
    else ([], c :: cs)

/-- Modelled from the spec: the optional exponent part of a NUMBER,
`e` or `E` followed by an optional sign and at least one digit; if no
digit would follow, nothing is consumed. -/
def lexExp : List Char → List Char × List Char
  | [] => ([], [])
  | c :: cs =>
    if c = 'e' || c = 'E' then
      match cs with
      | [] => ([], [c])
      | s :: cs' =>
        if s = '+' || s = '-' then
          match takeDigits cs' with
          | ([], _) => ([], c :: s :: cs')
          | (d :: ds, r) => (c :: s :: d :: ds, r)
        else
          match takeDigits (s :: cs') with
          | ([], _) => ([], c :: s :: cs')
          | (d :: ds, r) => (c :: d :: ds, r)
    else ([], c :: cs)

/-- Modelled from the spec: maximal munch of a NUMBER literal — optional
integer part, optional fractional part, optional exponent part. -/
def lexNumber (l : List Char) : List Char × List Char :=
  let pi := takeDigits l
  let pf := lexFrac pi.2
  let px := lexExp pf.2
  (pi.1 ++ pf.1 ++ px.1, px.2)

/-- Does the remaining input start with a digit?  Used to decide whether
a `.` starts a numeric literal. -/
def digitNext : List Char → Bool
  | [] => false
  | c :: _ => c.isDigit

/-- Single-character operator and parenthesis tokens. -/
def opKind (c : Char) : Option TokenKind :=
  if c = '+' then some .plus
  else if c = '-' then some .minus
  else if c = '*' then some .star
  else if c = '/' then some .slash
  else if c = '(' then some .lparen
  else if c = ')' then some .rparen
  else none

/-- Modelled from the spec: the lexer's left-to-right scan.  Skips inline
whitespace, emits single-character tokens and maximal NUMBER tokens, and
fails on any other character.  The fuel argument bounds the recursion;
`tokenize` supplies enough fuel for the whole input. -/
def tokenizeAux : Nat → Nat → List Char → Except LexError (List Token)
  | _, pos, [] => .ok [⟨.endOfInput, [], pos, pos⟩]
  | 0, pos, c :: _ => .error ⟨pos, c⟩
  | fuel + 1, pos, c :: cs =>
    if c = ' ' || c = '\t' then
      tokenizeAux fuel (pos + 1) cs
    else
      match opKind c with
      | some k =>
        match tokenizeAux fuel (pos + 1) cs with
        | .error e => .error e
        | .ok ts => .ok (⟨k, [c], pos, pos + 1⟩ :: ts)
      | none =>
        if c.isDigit || (c = '.' && digitNext cs) then
          match tokenizeAux fuel (pos + (lexNumber (c :: cs)).1.length)
              (lexNumber (c :: cs)).2 with
          | .error e => .error e
          | .ok ts =>
            .ok (⟨.number, (lexNumber (c :: cs)).1, pos,
              pos + (lexNumber (c :: cs)).1.length⟩ :: ts)
        else .error ⟨pos, c⟩

/-- Tokenize a string: ordered token sequence terminated by a synthetic
end-of-input token whose offset equals the input's length. -/
def tokenize (s : String) : Except LexError (List Token) :=
  tokenizeAux s.length 0 s.data

/-! ## Parser -/

/-- Binary operator precedence: `+ -` bind at level 1, `* /` at level 2;
`none` for tokens that are not binary operators. -/
def opPrec : TokenKind → Option Nat
  | .plus => some 1
  | .minus => some 1
  | .star => some 2
  | .slash => some 2
  | _ => none

/-- Build the AST node for a binary operator token. -/
def mkBin (k : TokenKind) (a b : Expr) : Expr :=
  match k with
  | .minus => .sub a b
  | .star => .mul a b
  | .slash => .div a b
  | _ => .add a b

/-- Printable description of a token kind, used in error messages. -/
def TokenKind.describe : TokenKind → String
  | .number => "number"
  | .plus => "+"
  | .minus => "-"
  | .star => "*"
  | .slash => "/"
  | .lparen => "("
  | .rparen => ")"
  | .endOfInput => "end of input"

/-- Message for a token found where an operand was expected. -/
def operandMsg (k : TokenKind) : String :=
  "expected number, minus or left parenthesis but found " ++ k.describe

/-- Message for a missing closing parenthesis. -/
def rparenMsg (k : TokenKind) : String :=
  "expected closing parenthesis but found " ++ k.describe

/-- Message for unconsumed input after a complete expression. -/
def trailingMsg (k : TokenKind) : String :=
  "unexpected trailing token " ++ k.describe

/-- Message for a lexing failure. -/
def lexMsg (e : LexError) : String :=
  "unexpected character " ++ e.char.toString

/-- Message for recursion-fuel exhaustion (never reached with the fuel
supplied by `runParse`). -/
def fuelMsg : String := "internal recursion limit reached"

mutual

/-- Modelled from the spec: `parseFactor` — unary minus recurses into a
factor, a NUMBER is an operand, `(` opens a sub-expression that must be
closed by `)`, and any other token is an error at its offset naming the
expected operand forms. -/
def parseFactor : Nat → List Token → Except PError (Expr × List Token)
  | 0, _ => .error ⟨0, fuelMsg⟩
  | fuel + 1, ts =>
    match ts with
    | [] => .error ⟨0, fuelMsg⟩
    | t :: rest =>
      match t.kind with
      | .minus =>
        match parseFactor fuel rest with
        | .error e => .error e
        | .ok (e, r) => .ok (.neg e, r)
      | .number => .ok (.num t.text, rest)
      | .lparen =>
        match parseExpr fuel 1 rest with
        | .error e => .error e
        | .ok (e, r) =>
          match r with
          | [] => .error ⟨0, fuelMsg⟩
          | u :: r' =>
            if u.kind = .rparen then .ok (e, r')
            else .error ⟨u.start_offset, rparenMsg u.kind⟩
      | _ => .error ⟨t.start_offset, operandMsg t.kind⟩

/-- Modelled from the spec: precedence climbing — parse one factor, then
fold binary operators of precedence at least `minPrec` left-associatively. -/
def parseExpr : Nat → Nat → List Token → Except PError (Expr × List Token)
  | 0, _, _ => .error ⟨0, fuelMsg⟩
  | fuel + 1, minPrec, ts =>
    match parseFactor fuel ts with
    | .error e => .error e
    | .ok (lhs, rest) => parseLoop fuel minPrec lhs rest

/-- Modelled from the spec: the left-associative fold of `parseExpr` —
while the next token is a binary operator of precedence `p ≥ minPrec`,
consume it, parse the right operand at `p + 1`, and combine. -/
def parseLoop : Nat → Nat → Expr → List Token → Except PError (Expr × List Token)
  | 0, _, _, _ => .error ⟨0, fuelMsg⟩
  | fuel + 1, minPrec, lhs, ts =>
    match ts with
    | [] => .ok (lhs, [])
    | t :: rest =>
      match opPrec t.kind with
      | none => .ok (lhs, t :: rest)
      | some p =>
        if p < minPrec then .ok (lhs, t :: rest)
        else
          match parseExpr fuel (p + 1) rest with
          | .error e => .error e
          | .ok (rhs, rest') => parseLoop fuel minPrec (mkBin t.kind lhs rhs) rest'

end

/-- Fuel that is always sufficient for `parseExpr` on a token list. -/
def parserFuel (ts : List Token) : Nat := 3 * ts.length + 3

/-- Modelled from the spec: run the parser on a token sequence; after the
top-level expression the next token must be end-of-input, otherwise the
call fails at the first unconsumed token. -/
def runParse (ts : List Token) : Except PError Expr :=
  match parseExpr (parserFuel ts) 1 ts with
  | .error e => .error e
  | .ok (e, []) => .ok e
  | .ok (e, t :: _) =>
    if t.kind = .endOfInput then .ok e
    else .error ⟨t.start_offset, trailingMsg t.kind⟩

/-- Lexer then parser; a lexing failure is mapped into the same error
shape as a parser-level failure. -/
def parseTree (s : String) : Except PError Expr :=
  match tokenize s with
  | .error e => .error ⟨e.offset, lexMsg e⟩
  | .ok ts => runParse ts

/-- The validator facade: `Valid`, or `Invalid` with position and message,
for every input; it never throws. -/
def validate (s : String) : ValidationOutcome :=
  match parseTree s with
  | .ok _ => .Valid
  | .error e => .Invalid e.pos e.msg

/-- The source's `validate_expression` wrapper: returns
`(is_valid, error-or-None)`, formatting the failure position and message
into the error string. -/
def validate_expression (s : String) : Bool × Option String :=
  match validate s with
  | .Valid => (true, none)
  | .Invalid p m =>
    (false, some ("Invalid input at position " ++ toString p ++ ": " ++ m))

/-- Numeric value of a digit string (used only to evaluate the integer
literals appearing in the associativity/precedence scenarios). -/
def digitsVal (l : List Char) : Nat :=
  l.foldl (fun a c => 10 * a + (c.toNat - 48)) 0

/-- Evaluate an expression tree over the integers (division is integer
division; no scenario in this development divides). -/
def eval : Expr → Int
  | .num t => (digitsVal t : Int)
  | .neg e => - eval e
  | .add a b => eval a + eval b
  | .sub a b => eval a - eval b
  | .mul a b => eval a * eval b
  | .div a b => eval a / eval b

/-! ## Specification predicates and invariants -/

/-- Is every character of the list a decimal digit? -/
def isDigits (l : List Char) : Bool := l.all Char.isDigit

/-- Modelled from the spec: a well-formed fractional part is empty or a
`.` followed by digits. -/
def isFracPart : List Char → Bool
  | [] => true
  | c :: ds => c = '.' && isDigits ds

/-- Modelled from the spec: what may follow the `e`/`E` of an exponent —
an optional sign and at least one digit. -/
def expTail : List Char → Bool
  | [] => false
  | c :: ds =>
    if c = '+' || c = '-' then !ds.isEmpty && isDigits ds
    else isDigits (c :: ds)

/-- Modelled from the spec: a well-formed exponent part is empty or an
`e`/`E` followed by an optional sign and at least one digit. -/
def isExpPart : List Char → Bool
  | [] => true
  | c :: rest => (c = 'e' || c = 'E') && expTail rest

/-- Modelled from the spec: the NUMBER pattern — an optional integer
part, an optional fractional part introduced by `.`, an optional
exponent suffix, with at least one digit present overall. -/
def NumberPattern (t : List Char) : Prop :=
  ∃ i f x, t = i ++ f ++ x ∧ isDigits i = true ∧ isFracPart f = true ∧
    isExpPart x = true ∧ ∃ c ∈ t, c.isDigit = true

/-- Invariant of a lexing result relative to the input length `n`: a
failure's offset is at most `n`, and every emitted token stays within
`[0, n]` and, if a NUMBER, carries pattern-conforming text. -/
def lexInv (n : Nat) : Except LexError (List Token) → Prop
  | .error e => e.offset ≤ n
  | .ok ts => ∀ t ∈ ts, t.start_offset ≤ n ∧ t.end_offset ≤ n ∧
      (t.kind = TokenKind.number → NumberPattern t.text)

/-- A parse error's reported position is 0 (unreachable fuel sentinel)
or the start offset of one of the tokens in scope. -/
def errPosIn (ts : List Token) (e : PError) : Prop :=
  e.pos = 0 ∨ ∃ t ∈ ts, e.pos = t.start_offset

/-- Invariant of a parsing result relative to the tokens in scope: on
success the unconsumed remainder is a sublist of the input tokens, on
failure the reported position comes from a token in scope (or is the
fuel sentinel 0). -/
def parseInv (ts : List Token) : Except PError (Expr × List Token) → Prop
  | .ok p => p.2.Sublist ts
  | .error e => errPosIn ts e

end ExprValidator

namespace ExprValidator

/-! ## Concrete scenario theorems -/

/-- C1: each of the concrete inputs "1+2*3", "(4 - 5) * (6 + 7)", "42"
and "-(3+2)*4" is accepted as Valid: inline whitespace is skipped and
unary minus is permitted before a parenthesized group. -/
theorem valid_examples_accepted :
    validate "1+2*3" = ValidationOutcome.Valid ∧
    validate "(4 - 5) * (6 + 7)" = ValidationOutcome.Valid ∧
    validate "42" = ValidationOutcome.Valid ∧
    validate "-(3+2)*4" = ValidationOutcome.Valid :=
  ⟨rfl, rfl, rfl, rfl⟩

/-- C2: binary operators are resolved left-associatively with star and
slash binding tighter than plus and minus: "8-3-2" parses with tree
shape (8-3)-2, which evaluates to 3 and not 7, and "1+2*3" is Valid
with tree shape 1+(2*3), which evaluates to 7 and not 9. -/
theorem assoc_prec_tree_shapes :
    parseTree "8-3-2" =
      Except.ok (Expr.sub (Expr.sub (Expr.num ['8']) (Expr.num ['3'])) (Expr.num ['2'])) ∧
    eval (Expr.sub (Expr.sub (Expr.num ['8']) (Expr.num ['3'])) (Expr.num ['2'])) = 3 ∧
    parseTree "1+2*3" =
      Except.ok (Expr.add (Expr.num ['1']) (Expr.mul (Expr.num ['2']) (Expr.num ['3']))) ∧
    eval (Expr.add (Expr.num ['1']) (Expr.mul (Expr.num ['2']) (Expr.num ['3']))) = 7 ∧
    validate "1+2*3" = ValidationOutcome.Valid :=
  ⟨rfl, rfl, rfl, rfl, rfl⟩

/-- C4: for "3 + * 4" the validator reports Invalid at offset 4 (the
offset of the star), with a message naming the star as found where an
operand was expected. -/
theorem missing_operand_position :
    validate "3 + * 4" =
      ValidationOutcome.Invalid 4
        "expected number, minus or left parenthesis but found *" :=
  rfl

/-- C5: for "(1+2" the validator reports Invalid at the end-of-input
offset 4 (the input's length), with a message indicating that a closing
parenthesis was expected. -/
theorem unmatched_lparen_position :
    validate "(1+2" =
      ValidationOutcome.Invalid 4
        "expected closing parenthesis but found end of input" ∧
    String.length "(1+2" = 4 :=
  ⟨rfl, rfl⟩

/-- C6: for the empty input the validator reports Invalid at position 0
with a message stating that a number, minus or left parenthesis was
expected. -/
theorem empty_input_position :
    validate "" =
      ValidationOutcome.Invalid 0
        "expected number, minus or left parenthesis but found end of input" :=
  rfl

/-! ## Uniform-outcome theorems -/

/-- C3: validation is a total function into the two-constructor outcome
type — every input yields either Valid or a single Invalid with position
and message — and a lexer failure is mapped into that same Invalid
shape, carrying the lexing error's offset. -/
theorem outcome_uniform_shape (s : String) :
    (validate s = ValidationOutcome.Valid ∨
      ∃ p m, validate s = ValidationOutcome.Invalid p m) ∧
    (∀ e : LexError, tokenize s = Except.error e →
      validate s = ValidationOutcome.Invalid e.offset (lexMsg e)) := by
  constructor
  · cases h : validate s with
    | Valid => exact Or.inl rfl
    | Invalid p m => exact Or.inr ⟨p, m, rfl⟩
  · intro e he
    simp [validate, parseTree, he]

/-- Witness for C3: at the concrete input "@" the lexer fails at offset
0 on the character at-sign and the validator surfaces exactly that
failure as Invalid. -/
theorem outcome_uniform_shape_witness :
    validate "@" = ValidationOutcome.Invalid 0 (lexMsg ⟨0, '@'⟩) :=
  (outcome_uniform_shape "@").2 ⟨0, '@'⟩ rfl

/-- C9: whenever lexing succeeds and the parser consumes a structurally
complete expression leaving a first unconsumed token that is not the
end-of-input marker, validation fails at exactly that token's offset. -/
theorem trailing_input_position (s : String) (ts : List Token)
    (e : Expr) (t : Token) (rest : List Token)
    (htok : tokenize s = Except.ok ts)
    (hparse : parseExpr (parserFuel ts) 1 ts = Except.ok (e, t :: rest))
    (hne : t.kind ≠ TokenKind.endOfInput) :
    validate s = ValidationOutcome.Invalid t.start_offset (trailingMsg t.kind) := by
  simp [validate, parseTree, runParse, htok, hparse, hne]

/-- Witness for C9: on "42 43" the parser consumes the expression 42 and
leaves the NUMBER token at offset 3, so validation fails at position 3. -/
theorem trailing_input_position_witness :
    validate "42 43" =
      ValidationOutcome.Invalid 3 (trailingMsg TokenKind.number) :=
  trailing_input_position "42 43"
    [⟨.number, ['4', '2'], 0, 2⟩, ⟨.number, ['4', '3'], 3, 5⟩, ⟨.endOfInput, [], 5, 5⟩]
    (Expr.num ['4', '2']) ⟨.number, ['4', '3'], 3, 5⟩ [⟨.endOfInput, [], 5, 5⟩]
    rfl rfl (by decide)

/-- C10: the wrapper returns exactly one of (true, none) or
(false, some message) — the error component is none if and only if the
validity flag is true. -/
theorem validate_expression_pair_shape (s : String) :
    validate_expression s = (true, none) ∨
      ∃ m, validate_expression s = (false, some m) := by
  unfold validate_expression
  cases h : validate s with
  | Valid => exact Or.inl rfl
  | Invalid p m => exact Or.inr ⟨_, rfl⟩

end ExprValidator

namespace ExprValidator

/-! ## Lexer lemmas -/

/-- `takeDigits` splits its input: consumed part plus rest is the input. -/
theorem takeDigits_append (l : List Char) :
    (takeDigits l).1 ++ (takeDigits l).2 = l := by
  induction l with
  | nil => rfl
  | cons c cs ih =>
    simp only [takeDigits]
    split
    · simpa using ih
    · rfl

/-- Every character consumed by `takeDigits` is a digit. -/
theorem takeDigits_all (l : List Char) :
    (takeDigits l).1.all Char.isDigit = true := by
  induction l with
  | nil => rfl
  | cons c cs ih =>
    simp only [takeDigits]
    split
    · rename_i h
      simpa [List.all_cons, h] using ih
    · rfl

/-- `lexFrac` splits its input. -/
theorem lexFrac_append (l : List Char) :
    (lexFrac l).1 ++ (lexFrac l).2 = l := by
  cases l with
  | nil => rfl
  | cons c cs =>
    simp only [lexFrac]
    split
    · simpa using takeDigits_append cs
    · rfl

/-- The fractional part consumed by `lexFrac` is well-formed. -/
theorem lexFrac_shape (l : List Char) : isFracPart (lexFrac l).1 = true := by
  cases l with
  | nil => rfl
  | cons c cs =>
    simp only [lexFrac]
    split
    · rename_i h
      simp [isFracPart, h, isDigits, takeDigits_all cs]
    · rfl

/-- `lexExp` splits its input. -/
theorem lexExp_append (l : List Char) :
    (lexExp l).1 ++ (lexExp l).2 = l := by
  match l with
  | [] => rfl
  | [c] =>
    simp only [lexExp]
    split
    · rfl
    · rfl
  | c :: s :: cs' =>
    simp only [lexExp]
    split
    · split
      · rcases h : takeDigits cs' with ⟨d, r⟩
        have ha := takeDigits_append cs'
        rw [h] at ha
        rcases d with _ | ⟨d0, ds⟩
        · simp [h]
        · simp only [h]
          simp only at ha
          rw [← ha]
          simp
      · rcases h : takeDigits (s :: cs') with ⟨d, r⟩
        have ha := takeDigits_append (s :: cs')
        rw [h] at ha
        rcases d with _ | ⟨d0, ds⟩
        · simp [h]
        · simp only [h]
          simp only at ha
          rw [← ha]
          simp
    · rfl

/-- A digit character is neither `+` nor `-`. -/
theorem digit_not_sign {c : Char} (h : c.isDigit = true) :
    (decide (c = '+') || decide (c = '-')) = false := by
  rcases eq_or_ne c '+' with rfl | h1
  · exact absurd h (by decide)
  · rcases eq_or_ne c '-' with rfl | h2
    · exact absurd h (by decide)
    · simp [h1, h2]

/-- The exponent part consumed by `lexExp` is well-formed. -/
theorem lexExp_shape (l : List Char) : isExpPart (lexExp l).1 = true := by
  match l with
  | [] => rfl
  | [c] =>
    simp only [lexExp]
    split
    · rfl
    · rfl
  | c :: s :: cs' =>
    simp only [lexExp]
    split
    · rename_i hc
      split
      · rename_i hs
        rcases h : takeDigits cs' with ⟨d, r⟩
        have ha := takeDigits_all cs'
        rw [h] at ha
        rcases d with _ | ⟨d0, ds⟩
        · simp only [h]
          rfl
        · simp only [h]
          simp only [List.all_cons, Bool.and_eq_true] at ha
          simp [isExpPart, hc, expTail, hs, isDigits, List.all_cons, ha.1, ha.2]
      · rename_i hs
        rcases h : takeDigits (s :: cs') with ⟨d, r⟩
        have ha := takeDigits_all (s :: cs')
        rw [h] at ha
        rcases d with _ | ⟨d0, ds⟩
        · simp only [h]
          rfl
        · simp only [h]
          simp only [List.all_cons, Bool.and_eq_true] at ha
          simp [isExpPart, hc, expTail, digit_not_sign ha.1, isDigits,
            List.all_cons, ha.1, ha.2]
    · rfl

/-- `lexNumber` splits its input. -/
theorem lexNumber_append (l : List Char) :
    (lexNumber l).1 ++ (lexNumber l).2 = l := by
  simp only [lexNumber]
  rw [List.append_assoc, List.append_assoc, lexExp_append, lexFrac_append,
    takeDigits_append]

/-- A NUMBER lexed from a position where a numeric literal may start
(a digit, or a `.` followed by a digit) has pattern-conforming text. -/
theorem lexNumber_pattern {c : Char} {cs : List Char}
    (h : (c.isDigit || (decide (c = '.') && digitNext cs)) = true) :
    NumberPattern (lexNumber (c :: cs)).1 := by
  refine ⟨(takeDigits (c :: cs)).1,
    (lexFrac (takeDigits (c :: cs)).2).1,
    (lexExp (lexFrac (takeDigits (c :: cs)).2).2).1,
    rfl, takeDigits_all _, lexFrac_shape _, lexExp_shape _, ?_⟩
  rcases Bool.or_eq_true_iff.mp h with hc | hcd
  · refine ⟨c, ?_, hc⟩
    have ht : takeDigits (c :: cs) =
        (c :: (takeDigits cs).1, (takeDigits cs).2) := by
      simp [takeDigits, hc]
    simp [lexNumber, ht]
  · rcases Bool.and_eq_true_iff.mp hcd with ⟨hc, hd⟩
    have hc' : c = '.' := of_decide_eq_true hc
    subst hc'
    rcases cs with _ | ⟨d, cs''⟩
    · exact absurd hd (by simp [digitNext])
    · have hdd : d.isDigit = true := hd
      have ht : takeDigits ('.' :: d :: cs'') = ([], '.' :: d :: cs'') := by
        simp [takeDigits]
      have hf : lexFrac ('.' :: d :: cs'') =
          ('.' :: (takeDigits (d :: cs'')).1, (takeDigits (d :: cs'')).2) := by
        simp [lexFrac]
      have htd : takeDigits (d :: cs'') =
          (d :: (takeDigits cs'').1, (takeDigits cs'').2) := by
        simp [takeDigits, hdd]
      refine ⟨d, ?_, hdd⟩
      simp [lexNumber, ht, hf, htd]

/-- `opKind` never classifies a character as a NUMBER token. -/
theorem opKind_ne_number {c : Char} {k : TokenKind} (h : opKind c = some k) :
    k ≠ TokenKind.number := by
  unfold opKind at h
  split_ifs at h <;> injection h with h <;> subst h <;> decide

/-- The lexer invariant: with enough input budget, failures are reported
at an offset at most `n` and all tokens lie within `[0, n]` with
pattern-conforming NUMBER text. -/
theorem tokenizeAux_inv :
    ∀ (fuel pos : Nat) (cs : List Char) (n : Nat),
      pos + cs.length ≤ n → lexInv n (tokenizeAux fuel pos cs) := by
  intro fuel
  induction fuel with
  | zero =>
    intro pos cs n hn
    cases cs with
    | nil =>
      intro t ht
      simp only [tokenizeAux, List.mem_singleton] at ht
      subst ht
      exact ⟨by simpa using hn, by simpa using hn,
        fun hk => TokenKind.noConfusion hk⟩
    | cons c cs' =>
      show pos ≤ n
      simp only [List.length_cons] at hn
      omega
  | succ fuel ih =>
    intro pos cs n hn
    cases cs with
    | nil =>
      intro t ht
      simp only [tokenizeAux, List.mem_singleton] at ht
      subst ht
      exact ⟨by simpa using hn, by simpa using hn,
        fun hk => TokenKind.noConfusion hk⟩
    | cons c cs' =>
      simp only [List.length_cons] at hn
      simp only [tokenizeAux]
      split
      · exact ih (pos + 1) cs' n (by omega)
      · cases hop : opKind c with
        | some k =>
          simp only [hop]
          have hrest := ih (pos + 1) cs' n (by omega)
          cases hrec : tokenizeAux fuel (pos + 1) cs' with
          | error e =>
            rw [hrec] at hrest
            exact hrest
          | ok ts =>
            rw [hrec] at hrest
            intro t ht
            rcases List.mem_cons.mp ht with rfl | htm
            · exact ⟨by show pos ≤ n; omega, by show pos + 1 ≤ n; omega,
                fun hk => absurd hk (opKind_ne_number hop)⟩
            · exact hrest t htm
        | none =>
          simp only [hop]
          split
          · rename_i hnum
            have hlen : (lexNumber (c :: cs')).1.length +
                (lexNumber (c :: cs')).2.length = cs'.length + 1 := by
              have := congrArg List.length (lexNumber_append (c :: cs'))
              simpa [List.length_append] using this
            have hrest := ih (pos + (lexNumber (c :: cs')).1.length)
              (lexNumber (c :: cs')).2 n (by omega)
            cases hrec : tokenizeAux fuel (pos + (lexNumber (c :: cs')).1.length)
                (lexNumber (c :: cs')).2 with
            | error e =>
              rw [hrec] at hrest
              exact hrest
            | ok ts =>
              rw [hrec] at hrest
              intro t ht
              rcases List.mem_cons.mp ht with rfl | htm
              · exact ⟨by show pos ≤ n; omega,
                  by show pos + (lexNumber (c :: cs')).1.length ≤ n; omega,
                  fun _ => lexNumber_pattern hnum⟩
              · exact hrest t htm
          · show pos ≤ n
            omega

/-- The lexer invariant instantiated for `tokenize` at the input's length. -/
theorem tokenize_inv (s : String) : lexInv s.length (tokenize s) := by
  unfold tokenize
  exact tokenizeAux_inv s.length 0 s.data s.length
    (by rw [Nat.zero_add]; exact Nat.le_refl _)

/-! ## Parser lemmas -/

/-- An error position drawn from a sublist of tokens is drawn from the
larger token list as well. -/
theorem errPosIn_mono {r ts : List Token} (hsub : r.Sublist ts) {e : PError}
    (h : errPosIn r e) : errPosIn ts e := by
  rcases h with h | ⟨t, ht, he⟩
  · exact Or.inl h
  · exact Or.inr ⟨t, hsub.subset ht, he⟩

/-- The parse-result invariant transfers along token-list extension. -/
theorem parseInv_mono {r ts : List Token} (hsub : r.Sublist ts)
    {res : Except PError (Expr × List Token)}
    (h : parseInv r res) : parseInv ts res := by
  cases res with
  | ok p => exact List.Sublist.trans h hsub
  | error e => exact errPosIn_mono hsub h

/-- The parser invariant: for every fuel value, the three mutually
recursive parsing functions leave a sublist of their input tokens on
success and report a position taken from their input tokens (or the
fuel sentinel 0) on failure. -/
theorem parse_inv (fuel : Nat) :
    (∀ ts, parseInv ts (parseFactor fuel ts)) ∧
    (∀ minPrec ts, parseInv ts (parseExpr fuel minPrec ts)) ∧
    (∀ minPrec lhs ts, parseInv ts (parseLoop fuel minPrec lhs ts)) := by
  induction fuel with
  | zero =>
    exact ⟨fun ts => Or.inl rfl, fun minPrec ts => Or.inl rfl,
      fun minPrec lhs ts => Or.inl rfl⟩
  | succ fuel ih =>
    obtain ⟨ihF, ihE, ihL⟩ := ih
    refine ⟨?_, ?_, ?_⟩
    · intro ts
      cases ts with
      | nil => exact Or.inl rfl
      | cons t rest =>
        obtain ⟨k, tx, so, eo⟩ := t
        simp only [parseFactor]
        cases k with
        | minus =>
          have h := ihF rest
          cases hf : parseFactor fuel rest with
          | error e =>
            rw [hf] at h
            simp only [hf]
            exact errPosIn_mono (List.Sublist.cons _ (List.Sublist.refl _)) h
          | ok p =>
            rw [hf] at h
            obtain ⟨e, r⟩ := p
            simp only [hf]
            exact List.Sublist.trans h (List.Sublist.cons _ (List.Sublist.refl _))
        | number => exact List.Sublist.cons _ (List.Sublist.refl _)
        | lparen =>
          have h := ihE 1 rest
          cases hf : parseExpr fuel 1 rest with
          | error e =>
            rw [hf] at h
            simp only [hf]
            exact errPosIn_mono (List.Sublist.cons _ (List.Sublist.refl _)) h
          | ok p =>
            rw [hf] at h
            obtain ⟨e, r⟩ := p
            simp only [hf]
            cases r with
            | nil => exact Or.inl rfl
            | cons u r' =>
              by_cases hk : u.kind = TokenKind.rparen
              · simp only [hk, if_pos]
                exact List.Sublist.trans
                  (List.Sublist.cons _ (List.Sublist.refl _))
                  (List.Sublist.trans h (List.Sublist.cons _ (List.Sublist.refl _)))
              · simp only [hk, if_neg, if_false]
                exact Or.inr ⟨u, List.mem_cons_of_mem _
                  (h.subset (List.mem_cons_self _ _)), rfl⟩
        | plus => exact Or.inr ⟨_, List.mem_cons_self _ _, rfl⟩
        | star => exact Or.inr ⟨_, List.mem_cons_self _ _, rfl⟩
        | slash => exact Or.inr ⟨_, List.mem_cons_self _ _, rfl⟩
        | rparen => exact Or.inr ⟨_, List.mem_cons_self _ _, rfl⟩
        | endOfInput => exact Or.inr ⟨_, List.mem_cons_self _ _, rfl⟩
    · intro minPrec ts
      simp only [parseExpr]
      have h := ihF ts
      cases hf : parseFactor fuel ts with
      | error e =>
        rw [hf] at h
        simp only [hf]
        exact h
      | ok p =>
        rw [hf] at h
        obtain ⟨lhs, rest⟩ := p
        simp only [hf]
        exact parseInv_mono h (ihL minPrec lhs rest)
    · intro minPrec lhs ts
      cases ts with
      | nil => exact List.nil_sublist _
      | cons t rest =>
        simp only [parseLoop]
        cases hp : opPrec t.kind with
        | none =>
          simp only [hp]
          exact List.Sublist.refl _
        | some p =>
          simp only [hp]
          by_cases hlt : p < minPrec
          · simp only [hlt, if_pos]
            exact List.Sublist.refl _
          · simp only [hlt, if_neg, if_false]
            have h := ihE (p + 1) rest
            cases he : parseExpr fuel (p + 1) rest with
            | error e =>
              rw [he] at h
              simp only [he]
              exact errPosIn_mono (List.Sublist.cons _ (List.Sublist.refl _)) h
            | ok q =>
              rw [he] at h
              obtain ⟨rhs, rest'⟩ := q
              simp only [he]
              exact parseInv_mono
                (List.Sublist.trans h (List.Sublist.cons _ (List.Sublist.refl _)))
                (ihL minPrec (mkBin t.kind lhs rhs) rest')

/-- A `runParse` failure reports position 0 or the start offset of one
of the input tokens. -/
theorem runParse_err {ts : List Token} {e : PError}
    (h : runParse ts = Except.error e) :
    e.pos = 0 ∨ ∃ t ∈ ts, e.pos = t.start_offset := by
  unfold runParse at h
  have hinv := (parse_inv (parserFuel ts)).2.1 1 ts
  cases hp : parseExpr (parserFuel ts) 1 ts with
  | error e' =>
    rw [hp] at h hinv
    have h' : (Except.error e' : Except PError Expr) = Except.error e := h
    injection h' with h'
    subst h'
    exact hinv
  | ok p =>
    rw [hp] at h hinv
    obtain ⟨ex, r⟩ := p
    cases r with
    | nil =>
      have h' : (Except.ok ex : Except PError Expr) = Except.error e := h
      cases h'
    | cons t r' =>
      by_cases hk : t.kind = TokenKind.endOfInput
      · have h' : (if t.kind = TokenKind.endOfInput
            then (Except.ok ex : Except PError Expr)
            else Except.error ⟨t.start_offset, trailingMsg t.kind⟩) =
            Except.error e := h
        rw [if_pos hk] at h'
        cases h'
      · have h' : (if t.kind = TokenKind.endOfInput
            then (Except.ok ex : Except PError Expr)
            else Except.error ⟨t.start_offset, trailingMsg t.kind⟩) =
            Except.error e := h
        rw [if_neg hk] at h'
        injection h' with h'
        subst h'
        exact Or.inr ⟨t, hinv.subset (List.mem_cons_self _ _), rfl⟩

/-! ## Position-range and NUMBER-pattern theorems -/

/-- C7: for every input string, the position reported by an Invalid
outcome is an integer within the closed interval [0, length(input)]. -/
theorem invalid_position_in_range (s : String) (p : Nat) (m : String)
    (h : validate s = ValidationOutcome.Invalid p m) : p ≤ s.length := by
  unfold validate parseTree at h
  have hlex := tokenize_inv s
  cases ht : tokenize s with
  | error e =>
    rw [ht] at h hlex
    have h' : ValidationOutcome.Invalid e.offset (lexMsg e) =
        ValidationOutcome.Invalid p m := h
    injection h' with h1 h2
    rw [← h1]
    exact hlex
  | ok ts =>
    rw [ht] at h hlex
    have h2 : (match runParse ts with
        | Except.ok _ => ValidationOutcome.Valid
        | Except.error e => ValidationOutcome.Invalid e.pos e.msg) =
        ValidationOutcome.Invalid p m := h
    cases hr : runParse ts with
    | ok ex =>
      rw [hr] at h2
      have h' : ValidationOutcome.Valid = ValidationOutcome.Invalid p m := h2
      cases h'
    | error e =>
      rw [hr] at h2
      have h' : ValidationOutcome.Invalid e.pos e.msg =
          ValidationOutcome.Invalid p m := h2
      injection h' with h1 h2
      subst h1
      rcases runParse_err hr with h0 | ⟨t, htm, hp⟩
      · omega
      · rw [hp]
        exact (hlex t htm).1

/-- Witness for C7: applied at the empty input, whose Invalid outcome
reports position 0, within [0, 0]. -/
theorem invalid_position_in_range_witness :
    (0 : Nat) ≤ String.length "" :=
  invalid_position_in_range "" 0
    "expected number, minus or left parenthesis but found end of input" rfl

/-- C8: every NUMBER token emitted by the lexer has text matching the
pattern (optional integer part, optional fractional part introduced by
a dot, optional exponent suffix, with at least one digit present
overall), and ".5", "1.", "2e10" and "1.5E-3" are each accepted by the
validator as a single numeric operand. -/
theorem number_token_pattern :
    (∀ (s : String) (ts : List Token), tokenize s = Except.ok ts →
      ∀ t ∈ ts, t.kind = TokenKind.number → NumberPattern t.text) ∧
    validate ".5" = ValidationOutcome.Valid ∧
    validate "1." = ValidationOutcome.Valid ∧
    validate "2e10" = ValidationOutcome.Valid ∧
    validate "1.5E-3" = ValidationOutcome.Valid := by
  refine ⟨?_, rfl, rfl, rfl, rfl⟩
  intro s ts h t htm hk
  have hlex := tokenize_inv s
  rw [h] at hlex
  exact (hlex t htm).2.2 hk

/-- Witness for C8: the NUMBER token lexed from ".5" carries
pattern-conforming text. -/
theorem number_token_pattern_witness :
    NumberPattern ['.', '5'] :=
  number_token_pattern.1 ".5"
    [⟨.number, ['.', '5'], 0, 2⟩, ⟨.endOfInput, [], 2, 2⟩] rfl
    ⟨.number, ['.', '5'], 0, 2⟩ (List.mem_cons_self _ _) rfl

end ExprValidator
